import Mathlib

/-!
Verification of the vim buffer-mutation engine
(`packages/cli/src/ui/components/shared/vim-buffer-actions.ts`).

A JS string is modelled as the list of its Unicode codepoints (`Str`).
The helpers that live in `text-buffer.ts` / `textUtils.ts` (not part of the
provided sources) are modelled from the specification and marked as such in
their doc comments; everything else is translated from
`vim-buffer-actions.ts`.
-/

namespace VimBuf

/-- A JS string, modelled as its list of Unicode codepoints. -/
abbrev Str := List Nat

/-- Modelled from the spec: `cpLen` (textUtils) — the number of codepoints. -/
def cpLen (s : Str) : Nat := s.length

/-- Modelled from the spec: `cpSlice(str, a, b)` (textUtils) — codepoints `[a, b)`, clamped. -/
def cpSlice (s : Str) (a b : Nat) : Str := (s.take b).drop a

/-- Modelled from the spec: `cpSlice(str, a)` — codepoints from `a` to the end. -/
def cpSliceFrom (s : Str) (a : Nat) : Str := s.drop a

/-- Modelled from the spec: `toCodePoints` (textUtils) — the identity in this model. -/
def toCodePoints (s : Str) : Str := s

/-- The UTF-16 encoding of one codepoint: itself below `0x10000`, else a surrogate pair. -/
def utf16Units (c : Nat) : List Nat :=
  if c < 0x10000 then [c]
  else [0xD800 + (c - 0x10000) / 0x400, 0xDC00 + (c - 0x10000) % 0x400]

/-- A JS string as its list of UTF-16 code units. -/
def toUtf16 (s : Str) : List Nat := (s.map utf16Units).flatten

/-- Whether `n` occurs in `h` starting at unit index `k`. -/
def strMatchAt (h n : List Nat) (k : Nat) : Bool := (h.drop k).take n.length == n

/-- JS `hay.indexOf(needle, fromIdx)`: the least UTF-16 unit index `k ≥ min fromIdx len`
at which `needle` occurs in `hay`; `none` for JS's `-1`.  Note that both the scan
and the returned index are in UTF-16 units, not codepoints. -/
def jsIndexOf (hay needle : Str) (fromIdx : Nat) : Option Nat :=
  let h := toUtf16 hay
  let n := toUtf16 needle
  let start := min fromIdx h.length
  (List.range (h.length + 1)).find? (fun k => decide (start ≤ k) && strMatchAt h n k)

/-- JS `str.split('\n')` on codepoint lists; the result is always non-empty. -/
def splitNl : Str → List Str
  | [] => [[]]
  | c :: rest =>
    if c = 10 then [] :: splitNl rest
    else
      match splitNl rest with
      | [] => [[c]]
      | h :: t => (c :: h) :: t

theorem splitNl_ne_nil (s : Str) : splitNl s ≠ [] := by
  induction s with
  | nil => simp [splitNl]
  | cons c rest ih =>
    simp only [splitNl]
    split
    · simp
    · cases h : splitNl rest <;> simp

theorem splitNl_append_newline (a b : Str) :
    splitNl (a ++ 10 :: b) = splitNl a ++ splitNl b := by
  induction a with
  | nil => simp [splitNl]
  | cons c rest ih =>
    by_cases hc : c = 10
    · subst hc; simp [splitNl, ih]
    · cases h : splitNl rest with
      | nil => exact absurd h (splitNl_ne_nil rest)
      | cons x xs =>
        simp only [List.cons_append, splitNl, if_neg hc]
        rw [show rest.append (10 :: b) = rest ++ 10 :: b from rfl, ih, h]
        simp

theorem splitNl_no_newline (s : Str) (h : ∀ c ∈ s, c ≠ 10) : splitNl s = [s] := by
  induction s with
  | nil => simp [splitNl]
  | cons c rest ih =>
    have hc : c ≠ 10 := h c (by simp)
    simp only [splitNl, if_neg hc, ih (fun x hx => h x (by simp [hx]))]

/-- Modelled from the spec: `isWordCharStrict` (text-buffer) — the language-neutral
word class (letters, digits, underscore), here the ASCII word class. -/
def isWordCharStrict (c : Nat) : Bool :=
  (48 ≤ c && c ≤ 57) || (65 ≤ c && c ≤ 90) || (97 ≤ c && c ≤ 122) || c == 95

/-- Modelled from the spec: `isCombiningMark` (text-buffer) — zero-width combining
codepoints, here the Combining Diacritical Marks block. -/
def isCombiningMark (c : Nat) : Bool := 0x300 ≤ c && c ≤ 0x36F

/-- Modelled from the spec: `isWordCharWithCombining` (text-buffer). -/
def isWordCharWithCombining (c : Nat) : Bool := isWordCharStrict c || isCombiningMark c

/-- A whitespace codepoint, as JS `/\s/` sees the common cases. -/
def isSpaceChar (c : Nat) : Bool := c == 32 || (9 ≤ c && c ≤ 13) || c == 0xA0

/-- First strict word character of `l` at index `≥ c`. -/
def firstWordCharInLine (l : Str) (c : Nat) : Option Nat :=
  (List.range l.length).find? (fun i => decide (c ≤ i) && isWordCharStrict (l.getD i 0))

/-- Index just past the run of word-or-combining characters starting at `c`. -/
def skipWordRun (l : Str) (c : Nat) : Nat :=
  c + ((l.drop c).takeWhile isWordCharWithCombining).length

/-- Last strict word character of the word run beginning at `j` (a base character,
never a trailing combining mark). -/
def wordRunEnd (l : Str) (j : Nat) : Nat :=
  ((List.range (skipWordRun l j)).filter
    (fun k => decide (j ≤ k) && isWordCharStrict (l.getD k 0))).getLastD j

/-- First row (relative) and column holding a word character, scanning whole lines. -/
def firstWordCharFrom : List Str → Option (Nat × Nat)
  | [] => none
  | l :: rest =>
    match firstWordCharInLine l 0 with
    | some j => some (0, j)
    | none => (firstWordCharFrom rest).map (fun p => (p.1 + 1, p.2))

/-- Modelled from the spec: `findNextWordAcrossLines` (text-buffer, §4.3) — with
`findStart = true` the next word start (skipping the remainder of the current word),
with `findStart = false` the end of the word at or after the position; `none` at
document end. -/
def findNextWordAcrossLines (lines : List Str) (row col : Nat) (findStart : Bool) :
    Option (Nat × Nat) :=
  let l := lines.getD row []
  let c0 :=
    if findStart && decide (col < l.length) && isWordCharWithCombining (l.getD col 0) then
      skipWordRun l col
    else col
  match firstWordCharInLine l c0 with
  | some j => some (row, if findStart then j else wordRunEnd l j)
  | none =>
    match firstWordCharFrom (lines.drop (row + 1)) with
    | some p =>
      let r := row + 1 + p.1
      some (r, if findStart then p.2 else wordRunEnd (lines.getD r []) p.2)
    | none => none

/-- Word-start indices of a line: a word character not continued from the left. -/
def wordStartsInLine (l : Str) : List Nat :=
  (List.range l.length).filter (fun i =>
    isWordCharStrict (l.getD i 0) &&
      (decide (i = 0) || !isWordCharWithCombining (l.getD (i - 1) 0)))

/-- Last relative row (counting upward) and column of a word start, scanning
whole lines given in bottom-up order. -/
def lastWordStartUp : List Str → Option (Nat × Nat)
  | [] => none
  | l :: rest =>
    match (wordStartsInLine l).getLast? with
    | some j => some (0, j)
    | none => (lastWordStartUp rest).map (fun p => (p.1 + 1, p.2))

/-- Modelled from the spec: `findPrevWordAcrossLines` (text-buffer, §4.3) — the
previous word start strictly before the position; `none` at document start. -/
def findPrevWordAcrossLines (lines : List Str) (row col : Nat) : Option (Nat × Nat) :=
  let l := lines.getD row []
  match ((wordStartsInLine l).filter (fun i => decide (i < col))).getLast? with
  | some j => some (row, j)
  | none => (lastWordStartUp ((lines.take row).reverse)).map (fun p => (row - 1 - p.1, p.2))

/-- Modelled from the spec: `findWordEndInLine` (text-buffer, §4.3) — the last
codepoint of the word containing or following `c`, within one line. -/
def findWordEndInLine (l : Str) (c : Nat) : Option Nat :=
  (firstWordCharInLine l c).map (fun j => wordRunEnd l j)

/-- `isAtEndOfBaseWord` from vim-buffer-actions.ts: `col` holds a word character
followed only by combining marks until a non-word character or line end. -/
def isAtEndOfBaseWord (l : Str) (col : Nat) : Bool :=
  if !isWordCharStrict (l.getD col 0) then false
  else
    let i := (col + 1) + ((l.drop (col + 1)).takeWhile isCombiningMark).length
    decide (i ≥ l.length) || !isWordCharStrict (l.getD i 0)

/-- One undo snapshot: the full line sequence plus the cursor (spec §4.6). -/
structure Snapshot where
  lines : List Str
  cursorRow : Nat
  cursorCol : Nat
deriving DecidableEq, Repr

/-- `TextBufferState` (text-buffer), restricted to the fields the vim actions touch. -/
structure TextBufferState where
  lines : List Str
  cursorRow : Nat
  cursorCol : Nat
  preferredCol : Option Nat
  selectionAnchor : Option (Nat × Nat)
  clipboard : Option Str
  lastSearchQuery : Option Str
  undoStack : List Snapshot
  redoStack : List Snapshot
deriving DecidableEq, Repr

/-- Modelled from the spec: `pushUndo` (text-buffer, §4.6) — captures `lines` plus
cursor position onto the undo stack. -/
def pushUndo (s : TextBufferState) : TextBufferState :=
  { s with undoStack := ⟨s.lines, s.cursorRow, s.cursorCol⟩ :: s.undoStack }

/-- Modelled from the spec: `undo` (text-buffer, §4.6) — pops the most recent
snapshot and restores it, pushing the pre-undo state onto the redo stack. -/
def undo (s : TextBufferState) : TextBufferState :=
  match s.undoStack with
  | [] => s
  | snap :: rest =>
    { s with
      lines := snap.lines, cursorRow := snap.cursorRow, cursorCol := snap.cursorCol,
      undoStack := rest,
      redoStack := ⟨s.lines, s.cursorRow, s.cursorCol⟩ :: s.redoStack }

/-- Modelled from the spec: `replaceRangeInternal` (text-buffer, §4.4) — removes
`(sRow, sCol)` inclusive to `(eRow, eCol)` exclusive, concatenating the unaffected
start-line head, the replacement `text`, and the unaffected end-line tail, then
re-splitting on line breaks; the cursor lands at the end of the inserted text, and
the edit clears `preferredCol` (§4.7 key policy). -/
def replaceRangeInternal (s : TextBufferState) (sRow sCol eRow eCol : Nat)
    (text : Str) : TextBufferState :=
  let startLine := s.lines.getD sRow []
  let endLine := s.lines.getD eRow []
  let pre := cpSlice startLine 0 sCol
  let suf := cpSliceFrom endLine eCol
  let segs := splitNl text
  let mid := splitNl (pre ++ text ++ suf)
  { s with
    lines := s.lines.take sRow ++ mid ++ s.lines.drop (eRow + 1)
    cursorRow := sRow + (segs.length - 1)
    cursorCol := if segs.length = 1 then pre.length + text.length else (segs.getLastD []).length
    preferredCol := none }

/-- Flat codepoint offset of the start of row `k` in the lines joined by `'\n'`. -/
def lineStartOffset (lines : List Str) (k : Nat) : Nat :=
  ((lines.take k).map (fun l => cpLen l + 1)).sum

/-- Total codepoint length of the lines joined by `'\n'`. -/
def totalFlatLen (lines : List Str) : Nat := (lines.map cpLen).sum + (lines.length - 1)

/-- Modelled from the spec: `getLineRangeOffsets` (text-buffer, §4.5) — flat
offsets of an `N`-lines-at-`row` selection, clamped to the document. -/
def getLineRangeOffsets (row count : Nat) (lines : List Str) : Nat × Nat :=
  (min (lineStartOffset lines row) (totalFlatLen lines),
   min (lineStartOffset lines (row + count)) (totalFlatLen lines))

/-- Row/column of a flat codepoint offset. -/
def posOfOffset : List Str → Nat → Nat × Nat
  | [], o => (0, o)
  | l :: rest, o =>
    if o ≤ cpLen l ∨ rest = [] then (0, o)
    else
      let p := posOfOffset rest (o - cpLen l - 1)
      (p.1 + 1, p.2)

/-- Modelled from the spec: `getPositionFromOffsets` (text-buffer, §4.5). -/
def getPositionFromOffsets (so eo : Nat) (lines : List Str) : Nat × Nat × Nat × Nat :=
  let p := posOfOffset lines so
  let q := posOfOffset lines eo
  (p.1, p.2, q.1, q.2)

/-- The `direction` payload of `vim_search` / `vim_search_next`. -/
inductive SearchDir | fwd | bwd
deriving DecidableEq, Repr

/-- The `direction` payload of `vim_paste`. -/
inductive PasteDir | before | after
deriving DecidableEq, Repr

/-- The `movement` payload of `vim_change_movement`. -/
inductive ChangeMove | h | j | k | l
deriving DecidableEq, Repr

/-- The `VimAction` union of vim-buffer-actions.ts, with payload fields inlined. -/
inductive VimAction where
  | vim_delete_word_forward (count : Nat)
  | vim_change_word_forward (count : Nat)
  | vim_delete_word_backward (count : Nat)
  | vim_change_word_backward (count : Nat)
  | vim_delete_word_end (count : Nat)
  | vim_change_word_end (count : Nat)
  | vim_delete_line (count : Nat)
  | vim_change_line (count : Nat)
  | vim_delete_to_end_of_line
  | vim_change_to_end_of_line
  | vim_change_movement (movement : ChangeMove) (count : Nat)
  | vim_move_left (count : Nat)
  | vim_move_right (count : Nat)
  | vim_move_up (count : Nat)
  | vim_move_down (count : Nat)
  | vim_move_word_forward (count : Nat)
  | vim_move_word_backward (count : Nat)
  | vim_move_word_end (count : Nat)
  | vim_delete_char (count : Nat)
  | vim_insert_at_cursor
  | vim_append_at_cursor
  | vim_open_line_below
  | vim_open_line_above
  | vim_append_at_line_end
  | vim_insert_at_line_start
  | vim_move_to_line_start
  | vim_move_to_line_end
  | vim_move_to_first_nonwhitespace
  | vim_move_to_first_line
  | vim_move_to_last_line
  | vim_move_to_line (lineNumber : Nat)
  | vim_escape_insert_mode
  | vim_set_selection_anchor
  | vim_clear_selection
  | vim_search (query : Str) (direction : SearchDir)
  | vim_search_next (direction : SearchDir)
  | vim_yank (text : Str)
  | vim_yank_selection
  | vim_paste (direction : PasteDir)
deriving DecidableEq, Repr

/-- The count loop of `vim_delete_word_forward` / `vim_change_word_forward`. -/
def deleteWordForwardLoop (lines : List Str) : Nat → Nat → Nat → Nat × Nat
  | 0, r, c => (r, c)
  | n + 1, r, c =>
    match findNextWordAcrossLines lines r c true with
    | some p => deleteWordForwardLoop lines n p.1 p.2
    | none =>
      let currentLine := lines.getD r []
      match findWordEndInLine currentLine c with
      | some we => (r, we + 1)
      | none => (r, cpLen currentLine)

/-- The count loop of `vim_delete_word_backward` / `vim_change_word_backward`. -/
def deleteWordBackwardLoop (lines : List Str) : Nat → Nat → Nat → Nat × Nat
  | 0, r, c => (r, c)
  | n + 1, r, c =>
    match findPrevWordAcrossLines lines r c with
    | some p => deleteWordBackwardLoop lines n p.1 p.2
    | none => (r, c)

/-- The count loop of `vim_delete_word_end` / `vim_change_word_end`; `(er, ec)` is
the last reached end position. -/
def deleteWordEndLoop (lines : List Str) : Nat → Nat → Nat → Nat → Nat → Nat × Nat
  | 0, _, _, er, ec => (er, ec)
  | n + 1, r, c, er, ec =>
    match findNextWordAcrossLines lines r c false with
    | none => (er, ec)
    | some w =>
      if n = 0 then (w.1, w.2 + 1)
      else
        match findNextWordAcrossLines lines w.1 (w.2 + 1) true with
        | some nw => deleteWordEndLoop lines n nw.1 nw.2 w.1 (w.2 + 1)
        | none => (w.1, w.2 + 1)

/-- One step of the `vim_move_left` loop. -/
def moveLeftStep (lines : List Str) (p : Nat × Nat) : Nat × Nat :=
  if 0 < p.2 then (p.1, p.2 - 1)
  else if 0 < p.1 then
    let prevLineLength := cpLen (lines.getD (p.1 - 1) [])
    (p.1 - 1, if prevLineLength = 0 then 0 else prevLineLength - 1)
  else p

/-- One step of the `vim_move_right` loop, skipping combining marks. -/
def moveRightStep (lines : List Str) (p : Nat × Nat) : Nat × Nat :=
  let currentLine := lines.getD p.1 []
  let lineLength := cpLen currentLine
  if lineLength = 0 then
    if p.1 < lines.length - 1 then (p.1 + 1, 0) else p
  else if p.2 < lineLength - 1 then
    let c1 := p.2 + 1
    (p.1, c1 + (((currentLine.take (lineLength - 1)).drop c1).takeWhile isCombiningMark).length)
  else if p.1 < lines.length - 1 then (p.1 + 1, 0)
  else p

/-- `f` iterated `n` times (the JS `for (let i = 0; i < count; i++)` loop). -/
def iterateN {α : Type} (f : α → α) : Nat → α → α
  | 0, a => a
  | n + 1, a => iterateN f n (f a)

/-- The count loop of `vim_move_word_forward`. -/
def moveWordForwardLoop (lines : List Str) : Nat → Nat → Nat → Nat × Nat
  | 0, r, c => (r, c)
  | n + 1, r, c =>
    match findNextWordAcrossLines lines r c true with
    | some p => moveWordForwardLoop lines n p.1 p.2
    | none => (r, c)

/-- The count loop of `vim_move_word_backward`. -/
def moveWordBackwardLoop (lines : List Str) : Nat → Nat → Nat → Nat × Nat
  | 0, r, c => (r, c)
  | n + 1, r, c =>
    match findPrevWordAcrossLines lines r c with
    | some p => moveWordBackwardLoop lines n p.1 p.2
    | none => (r, c)

/-- The `atEndOfWord` test of the first `vim_move_word_end` iteration. -/
def atEndOfWordCond (lines : List Str) (r c : Nat) : Bool :=
  let l := lines.getD r []
  decide (c < l.length) && isWordCharStrict (l.getD c 0) &&
    (decide (c + 1 ≥ l.length) || !isWordCharWithCombining (l.getD (c + 1) 0) ||
      (isWordCharStrict (l.getD c 0) && isAtEndOfBaseWord l c))

/-- The count loop of `vim_move_word_end`; `first` marks the `i = 0` iteration. -/
def moveWordEndLoop (lines : List Str) : Nat → Bool → Nat → Nat → Nat × Nat
  | 0, _, r, c => (r, c)
  | n + 1, first, r, c =>
    if first && atEndOfWordCond lines r c then
      match findNextWordAcrossLines lines r (c + 1) false with
      | some p => moveWordEndLoop lines n false p.1 p.2
      | none =>
        match findNextWordAcrossLines lines r c false with
        | some q => moveWordEndLoop lines n false q.1 q.2
        | none => (r, c)
    else
      match findNextWordAcrossLines lines r c false with
      | some q => moveWordEndLoop lines n false q.1 q.2
      | none => (r, c)

/-- The subsequent-lines loop of the forward search; `i` is the absolute row of the
head of the list. -/
def searchLinesLoop (q : Str) : List Str → Nat → Option (Nat × Nat)
  | [], _ => none
  | l :: rest, i =>
    match jsIndexOf l q 0 with
    | some j => some (i, j)
    | none => searchLinesLoop q rest (i + 1)

/-- The wrap-around loop of the forward search over rows `0..cursorRow`. -/
def searchWrapLoop (q : Str) (row col : Nat) : List Str → Nat → Option (Nat × Nat)
  | [], _ => none
  | l :: rest, i =>
    match jsIndexOf l q 0 with
    | some j =>
      if i < row ∨ j < col then some (i, j) else searchWrapLoop q row col rest (i + 1)
    | none => searchWrapLoop q row col rest (i + 1)

/-- The forward-scan block of `vim_search` (the source repeats the identical block
verbatim inside `vim_search_next`). -/
def vimSearchForward (lines : List Str) (row col : Nat) (q : Str) : Option (Nat × Nat) :=
  match jsIndexOf (lines.getD row []) q (col + 1) with
  | some idx => some (row, idx)
  | none =>
    match searchLinesLoop q (lines.drop (row + 1)) (row + 1) with
    | some p => some p
    | none => searchWrapLoop q row col (lines.take (row + 1)) 0

/-- `handleVimAction` from vim-buffer-actions.ts. -/
def handleVimAction (state : TextBufferState) (action : VimAction) : TextBufferState :=
  let lines := state.lines
  let cursorRow := state.cursorRow
  let cursorCol := state.cursorCol
  match action with
  | .vim_delete_word_forward count | .vim_change_word_forward count =>
    let e := deleteWordForwardLoop lines count cursorRow cursorCol
    if e.1 ≠ cursorRow ∨ e.2 ≠ cursorCol then
      replaceRangeInternal (pushUndo state) cursorRow cursorCol e.1 e.2 []
    else state
  | .vim_delete_word_backward count | .vim_change_word_backward count =>
    let st := deleteWordBackwardLoop lines count cursorRow cursorCol
    if st.1 ≠ cursorRow ∨ st.2 ≠ cursorCol then
      replaceRangeInternal (pushUndo state) st.1 st.2 cursorRow cursorCol []
    else state
  | .vim_delete_word_end count | .vim_change_word_end count =>
    let e0 := deleteWordEndLoop lines count cursorRow cursorCol cursorRow cursorCol
    let e := if e0.1 < lines.length then (e0.1, min e0.2 (cpLen (lines.getD e0.1 []))) else e0
    if e.1 ≠ cursorRow ∨ e.2 ≠ cursorCol then
      replaceRangeInternal (pushUndo state) cursorRow cursorCol e.1 e.2 []
    else state
  | .vim_delete_line count =>
    if lines.length = 0 then state
    else
      let linesToDelete := min count (lines.length - cursorRow)
      let totalLines := lines.length
      if totalLines = 1 ∨ linesToDelete ≥ totalLines then
        let nextState := pushUndo state
        { nextState with lines := [[]], cursorRow := 0, cursorCol := 0, preferredCol := none }
      else
        let nextState := pushUndo state
        let newLines := nextState.lines.take cursorRow ++ nextState.lines.drop (cursorRow + linesToDelete)
        { nextState with
          lines := newLines
          cursorRow := min cursorRow (newLines.length - 1)
          cursorCol := 0
          preferredCol := none }
  | .vim_change_line count =>
    if lines.length = 0 then state
    else
      let linesToChange := min count (lines.length - cursorRow)
      let nextState := pushUndo state
      let o := getLineRangeOffsets cursorRow linesToChange nextState.lines
      let p := getPositionFromOffsets o.1 o.2 nextState.lines
      replaceRangeInternal nextState p.1 p.2.1 p.2.2.1 p.2.2.2 []
  | .vim_delete_to_end_of_line | .vim_change_to_end_of_line =>
    let currentLine := lines.getD cursorRow []
    if cursorCol < cpLen currentLine then
      replaceRangeInternal (pushUndo state) cursorRow cursorCol cursorRow (cpLen currentLine) []
    else state
  | .vim_change_movement mv count =>
    let totalLines := lines.length
    match mv with
    | .h =>
      replaceRangeInternal (pushUndo state) cursorRow (cursorCol - count) cursorRow cursorCol []
    | .j =>
      let linesToChange := min count (totalLines - cursorRow)
      if 0 < linesToChange then
        if totalLines = 1 then
          replaceRangeInternal (pushUndo state) 0 0 0 (cpLen (state.lines.getD 0 [])) []
        else
          let nextState := pushUndo state
          let o := getLineRangeOffsets cursorRow linesToChange nextState.lines
          let p := getPositionFromOffsets o.1 o.2 nextState.lines
          replaceRangeInternal nextState p.1 p.2.1 p.2.2.1 p.2.2.2 []
      else state
    | .k =>
      let upLines := min count (cursorRow + 1)
      if 0 < upLines then
        if state.lines.length = 1 then
          replaceRangeInternal (pushUndo state) 0 0 0 (cpLen (state.lines.getD 0 [])) []
        else
          let startRow := cursorRow + 1 - count
          let linesToChange := cursorRow - startRow + 1
          let nextState := pushUndo state
          let o := getLineRangeOffsets startRow linesToChange nextState.lines
          let p := getPositionFromOffsets o.1 o.2 nextState.lines
          let resultState := replaceRangeInternal nextState p.1 p.2.1 p.2.2.1 p.2.2.2 []
          { resultState with cursorRow := startRow, cursorCol := 0 }
      else state
    | .l =>
      replaceRangeInternal (pushUndo state) cursorRow cursorCol cursorRow
        (min (cpLen (lines.getD cursorRow [])) (cursorCol + count)) []
  | .vim_move_left count =>
    let p := iterateN (moveLeftStep lines) count (cursorRow, cursorCol)
    { state with cursorRow := p.1, cursorCol := p.2, preferredCol := none }
  | .vim_move_right count =>
    let p := iterateN (moveRightStep lines) count (cursorRow, cursorCol)
    { state with cursorRow := p.1, cursorCol := p.2, preferredCol := none }
  | .vim_move_up count =>
    let newRow := cursorRow - count
    let targetLineLength := cpLen (lines.getD newRow [])
    let newPreferredCol := state.preferredCol.getD cursorCol
    { state with
      cursorRow := newRow
      cursorCol := min newPreferredCol (if 0 < targetLineLength then targetLineLength - 1 else 0)
      preferredCol := some newPreferredCol }
  | .vim_move_down count =>
    let newRow := min (lines.length - 1) (cursorRow + count)
    let targetLineLength := cpLen (lines.getD newRow [])
    let newPreferredCol := state.preferredCol.getD cursorCol
    { state with
      cursorRow := newRow
      cursorCol := min newPreferredCol (if 0 < targetLineLength then targetLineLength - 1 else 0)
      preferredCol := some newPreferredCol }
  | .vim_move_word_forward count =>
    let p := moveWordForwardLoop lines count cursorRow cursorCol
    { state with cursorRow := p.1, cursorCol := p.2, preferredCol := none }
  | .vim_move_word_backward count =>
    let p := moveWordBackwardLoop lines count cursorRow cursorCol
    { state with cursorRow := p.1, cursorCol := p.2, preferredCol := none }
  | .vim_move_word_end count =>
    let p := moveWordEndLoop lines count true cursorRow cursorCol
    { state with cursorRow := p.1, cursorCol := p.2, preferredCol := none }
  | .vim_delete_char count =>
    match state.selectionAnchor with
    | some a =>
      let nextState := pushUndo state
      let o :=
        if a.1 < cursorRow ∨ (a.1 = cursorRow ∧ a.2 < cursorCol) then
          (a.1, a.2, cursorRow, cursorCol)
        else (cursorRow, cursorCol, a.1, a.2)
      { replaceRangeInternal nextState o.1 o.2.1 o.2.2.1 (o.2.2.2 + 1) [] with
        selectionAnchor := none }
    | none =>
      let currentLine := lines.getD cursorRow []
      let lineLength := cpLen currentLine
      if cursorCol < lineLength then
        let deleteCount := min count (lineLength - cursorCol)
        replaceRangeInternal (pushUndo state) cursorRow cursorCol cursorRow
          (cursorCol + deleteCount) []
      else state
  | .vim_insert_at_cursor => state
  | .vim_append_at_cursor =>
    let currentLine := lines.getD cursorRow []
    { state with
      cursorCol := if cursorCol < cpLen currentLine then cursorCol + 1 else cursorCol
      preferredCol := none }
  | .vim_open_line_below =>
    let endOfLine := cpLen (lines.getD cursorRow [])
    replaceRangeInternal (pushUndo state) cursorRow endOfLine cursorRow endOfLine [10]
  | .vim_open_line_above =>
    let resultState := replaceRangeInternal (pushUndo state) cursorRow 0 cursorRow 0 [10]
    { resultState with cursorRow := cursorRow, cursorCol := 0 }
  | .vim_append_at_line_end =>
    { state with cursorCol := cpLen (lines.getD cursorRow []), preferredCol := none }
  | .vim_insert_at_line_start =>
    { state with
      cursorCol := ((lines.getD cursorRow []).takeWhile isSpaceChar).length
      preferredCol := none }
  | .vim_move_to_line_start => { state with cursorCol := 0, preferredCol := none }
  | .vim_move_to_line_end =>
    let lineLength := cpLen (lines.getD cursorRow [])
    { state with
      cursorCol := if 0 < lineLength then lineLength - 1 else 0
      preferredCol := none }
  | .vim_move_to_first_nonwhitespace =>
    { state with
      cursorCol := ((lines.getD cursorRow []).takeWhile isSpaceChar).length
      preferredCol := none }
  | .vim_move_to_first_line =>
    { state with cursorRow := 0, cursorCol := 0, preferredCol := none }
  | .vim_move_to_last_line =>
    { state with cursorRow := lines.length - 1, cursorCol := 0, preferredCol := none }
  | .vim_move_to_line lineNumber =>
    { state with
      cursorRow := min (lineNumber - 1) (lines.length - 1)
      cursorCol := 0
      preferredCol := none }
  | .vim_escape_insert_mode =>
    { state with cursorCol := cursorCol - 1, preferredCol := none }
  | .vim_set_selection_anchor =>
    { state with selectionAnchor := some (cursorRow, cursorCol) }
  | .vim_clear_selection => { state with selectionAnchor := none }
  | .vim_search query dir =>
    match dir with
    | .fwd =>
      match vimSearchForward lines cursorRow cursorCol query with
      | some p =>
        { state with
          cursorRow := p.1, cursorCol := p.2, preferredCol := none
          lastSearchQuery := some query }
      | none => { state with lastSearchQuery := some query }
    | .bwd => { state with lastSearchQuery := some query }
  | .vim_search_next dir =>
    match state.lastSearchQuery with
    | none => state
    | some q =>
      if q = [] then state
      else
        match dir with
        | .fwd =>
          match vimSearchForward lines cursorRow cursorCol q with
          | some p => { state with cursorRow := p.1, cursorCol := p.2, preferredCol := none }
          | none => state
        | .bwd => state
  | .vim_yank text => { state with clipboard := some text }
  | .vim_yank_selection =>
    match state.selectionAnchor with
    | none => state
    | some a =>
      let o :=
        if a.1 < cursorRow ∨ (a.1 = cursorRow ∧ a.2 < cursorCol) then
          (a.1, a.2, cursorRow, cursorCol)
        else (cursorRow, cursorCol, a.1, a.2)
      let yankedText :=
        if o.1 = o.2.2.1 then cpSlice (lines.getD o.1 []) o.2.1 (o.2.2.2 + 1)
        else
          cpSliceFrom (lines.getD o.1 []) o.2.1 ++ [10] ++
            (((lines.drop (o.1 + 1)).take (o.2.2.1 - (o.1 + 1))).map (fun l => l ++ [10])).flatten ++
            cpSlice (lines.getD o.2.2.1 []) 0 (o.2.2.2 + 1)
      { state with clipboard := some yankedText }
  | .vim_paste dir =>
    match state.clipboard with
    | none => state
    | some clip =>
      if clip = [] then state
      else
        let nextState := pushUndo state
        match dir with
        | .after =>
          let currentLine := lines.getD cursorRow []
          if 10 ∈ clip then
            if clip.getLast? = some 10 then
              let endOfLine := cpLen currentLine
              replaceRangeInternal nextState cursorRow endOfLine cursorRow endOfLine
                (10 :: clip.dropLast)
            else
              let insertCol := min (cursorCol + 1) (cpLen currentLine)
              replaceRangeInternal nextState cursorRow insertCol cursorRow insertCol clip
          else
            let insertCol := min (cursorCol + 1) (cpLen currentLine)
            replaceRangeInternal nextState cursorRow insertCol cursorRow insertCol clip
        | .before =>
          if 10 ∈ clip ∧ clip.getLast? = some 10 then
            replaceRangeInternal nextState cursorRow 0 cursorRow 0 clip
          else
            replaceRangeInternal nextState cursorRow cursorCol cursorRow cursorCol clip

@[simp] theorem rri_lines_ne_nil (s : TextBufferState) (a b c d : Nat) (t : Str) :
    (replaceRangeInternal s a b c d t).lines ≠ [] := by
  simp only [replaceRangeInternal]
  intro h
  rcases List.append_eq_nil.1 h with ⟨h1, -⟩
  exact splitNl_ne_nil _ (List.append_eq_nil.1 h1).2

@[simp] theorem rri_preferredCol (s : TextBufferState) (a b c d : Nat) (t : Str) :
    (replaceRangeInternal s a b c d t).preferredCol = none := rfl

@[simp] theorem rri_undoStack (s : TextBufferState) (a b c d : Nat) (t : Str) :
    (replaceRangeInternal s a b c d t).undoStack = s.undoStack := rfl

@[simp] theorem rri_clipboard (s : TextBufferState) (a b c d : Nat) (t : Str) :
    (replaceRangeInternal s a b c d t).clipboard = s.clipboard := rfl

@[simp] theorem rri_selectionAnchor (s : TextBufferState) (a b c d : Nat) (t : Str) :
    (replaceRangeInternal s a b c d t).selectionAnchor = s.selectionAnchor := rfl

@[simp] theorem pushUndo_lines (s : TextBufferState) : (pushUndo s).lines = s.lines := rfl

@[simp] theorem pushUndo_cursorRow (s : TextBufferState) :
    (pushUndo s).cursorRow = s.cursorRow := rfl

@[simp] theorem pushUndo_cursorCol (s : TextBufferState) :
    (pushUndo s).cursorCol = s.cursorCol := rfl

@[simp] theorem pushUndo_preferredCol (s : TextBufferState) :
    (pushUndo s).preferredCol = s.preferredCol := rfl

@[simp] theorem pushUndo_clipboard (s : TextBufferState) :
    (pushUndo s).clipboard = s.clipboard := rfl

@[simp] theorem pushUndo_undoStack (s : TextBufferState) :
    (pushUndo s).undoStack = ⟨s.lines, s.cursorRow, s.cursorCol⟩ :: s.undoStack := rfl

/-- C1 (amended): for every state with non-empty `lines` and every command the
dispatcher returns non-empty `lines`; and a delete-line that covers every line of
the document (a single-line buffer, or cursor on row 0 with count at least the
line count) yields exactly one empty line with the cursor at (0,0). -/
theorem c1_lines_never_empty (s : TextBufferState) (h : s.lines ≠ []) :
    (∀ a, (handleVimAction s a).lines ≠ []) ∧
    (∀ cnt, s.lines.length = 1 ∨ (s.cursorRow = 0 ∧ s.lines.length ≤ cnt) →
      handleVimAction s (.vim_delete_line cnt) =
        { pushUndo s with lines := [[]], cursorRow := 0, cursorCol := 0, preferredCol := none }) := by
  have h0 : ¬ s.lines.length = 0 := fun h' => h (List.length_eq_zero.mp h')
  constructor
  · intro a
    cases a <;> simp only [handleVimAction] <;> (repeat' split) <;>
      first
        | exact h
        | (simp [h] <;> omega)
  · intro cnt hc
    have h1 : s.lines.length = 1 ∨ min cnt (s.lines.length - s.cursorRow) ≥ s.lines.length := by
      rcases hc with hc | ⟨hr, hcnt⟩
      · exact Or.inl hc
      · right; omega
    simp only [handleVimAction]
    rw [if_neg h0, if_pos h1]

/-- C1 counterexample to the claim as stated: with lines `["a", "b"]` and the
cursor on row 1, a delete-line count of 2 covers every remaining line (2 ≥ 1),
yet the result keeps line `"a"` instead of collapsing to one empty line. -/
theorem c1_delete_line_remaining_counterexample :
    let s : TextBufferState := ⟨[[97], [98]], 1, 0, none, none, none, none, [], []⟩
    s.lines.length - s.cursorRow ≤ 2 ∧
      (handleVimAction s (.vim_delete_line 2)).lines = [[97]] ∧
      (handleVimAction s (.vim_delete_line 2)).lines ≠ [[]] := by decide

/-- C1 witness: the theorem applied to the two-line buffer of spec Scenario 2. -/
theorem c1_lines_never_empty_witness :
    ([[97, 98, 99], [100, 101, 102]] : List Str) ≠ [] ∧
      (handleVimAction ⟨[[97, 98, 99], [100, 101, 102]], 0, 0, none, none, none, none, [], []⟩
          (.vim_delete_line 2)).lines ≠ [] ∧
      handleVimAction ⟨[[97, 98, 99], [100, 101, 102]], 0, 0, none, none, none, none, [], []⟩
          (.vim_delete_line 2) =
        { pushUndo ⟨[[97, 98, 99], [100, 101, 102]], 0, 0, none, none, none, none, [], []⟩ with
          lines := [[]], cursorRow := 0, cursorCol := 0, preferredCol := none } := by
  refine ⟨by decide, ?_, ?_⟩
  · exact (c1_lines_never_empty _ (by decide)).1 _
  · exact (c1_lines_never_empty _ (by decide)).2 2 (Or.inr ⟨rfl, by decide⟩)

theorem undo_restores (t : TextBufferState) (ls : List Str) (r c : Nat)
    (rest : List Snapshot) (ht : t.undoStack = ⟨ls, r, c⟩ :: rest) :
    (undo t).lines = ls ∧ (undo t).cursorRow = r ∧ (undo t).cursorCol = c := by
  simp [undo, ht]

/-- Every action leaves the undo stack alone or pushes exactly the snapshot of the
incoming state. -/
theorem handleVimAction_undoStack (s : TextBufferState) (a : VimAction) :
    (handleVimAction s a).undoStack = s.undoStack ∨
    (handleVimAction s a).undoStack = ⟨s.lines, s.cursorRow, s.cursorCol⟩ :: s.undoStack := by
  cases a <;> simp only [handleVimAction] <;> (repeat' split) <;> simp

/-- C3: whenever a command snapshots via `pushUndo` (the undo stack changed),
applying `undo` to the dispatched state restores the pre-command line content and
cursor position exactly. -/
theorem c3_undo_round_trip (s : TextBufferState) (a : VimAction)
    (h : (handleVimAction s a).undoStack ≠ s.undoStack) :
    (undo (handleVimAction s a)).lines = s.lines ∧
    (undo (handleVimAction s a)).cursorRow = s.cursorRow ∧
    (undo (handleVimAction s a)).cursorCol = s.cursorCol := by
  rcases handleVimAction_undoStack s a with h' | h'
  · exact absurd h' h
  · exact undo_restores _ _ _ _ _ h'

/-- C3 witness: deleting a line from `["ab"]` snapshots, and undo restores it. -/
theorem c3_undo_round_trip_witness :
    (handleVimAction ⟨[[97, 98]], 0, 1, none, none, none, none, [], []⟩
        (.vim_delete_line 1)).undoStack ≠
      (⟨[[97, 98]], 0, 1, none, none, none, none, [], []⟩ : TextBufferState).undoStack ∧
    (undo (handleVimAction ⟨[[97, 98]], 0, 1, none, none, none, none, [], []⟩
        (.vim_delete_line 1))).lines = [[97, 98]] ∧
    (undo (handleVimAction ⟨[[97, 98]], 0, 1, none, none, none, none, [], []⟩
        (.vim_delete_line 1))).cursorRow = 0 ∧
    (undo (handleVimAction ⟨[[97, 98]], 0, 1, none, none, none, none, [], []⟩
        (.vim_delete_line 1))).cursorCol = 1 :=
  ⟨by decide, c3_undo_round_trip ⟨[[97, 98]], 0, 1, none, none, none, none, [], []⟩
    (.vim_delete_line 1) (by decide)⟩

/-- The two vertical motions, which use `preferredCol`. -/
def isVerticalMotion : VimAction → Bool
  | .vim_move_up _ | .vim_move_down _ => true
  | _ => false

/-- C8 (amended): a vertical motion stores `preferredCol` (seeding it with the
current column when unset); every other command either clears `preferredCol` or is
one of the commands that leave line content, cursor and `preferredCol` all
untouched (no-op edits, unmatched or backward searches, selection-anchor updates,
yanks, insert-at-cursor, empty-clipboard pastes). -/
theorem c8_preferredCol_discipline (s : TextBufferState) (a : VimAction) :
    (isVerticalMotion a = true →
      (handleVimAction s a).preferredCol = some (s.preferredCol.getD s.cursorCol)) ∧
    (isVerticalMotion a = false →
      ((handleVimAction s a).preferredCol = none ∨
        ((handleVimAction s a).lines = s.lines ∧
          (handleVimAction s a).cursorRow = s.cursorRow ∧
          (handleVimAction s a).cursorCol = s.cursorCol ∧
          (handleVimAction s a).preferredCol = s.preferredCol))) := by
  cases a <;> constructor <;> intro hv <;>
    first
      | (simp [isVerticalMotion] at hv; done)
      | (simp only [handleVimAction] <;> (repeat' split) <;> simp)

/-- C8 counterexample to the claim as stated: `vim_yank` is not a vertical motion
yet returns the incoming `preferredCol = some 2` instead of clearing it. -/
theorem c8_yank_keeps_preferredCol_counterexample :
    (handleVimAction ⟨[[97]], 0, 0, some 2, none, none, none, [], []⟩
        (.vim_yank [120])).preferredCol = some 2 := by decide

/-- C8 witness: the amended theorem applied to a vertical motion and to a
clearing motion at concrete states. -/
theorem c8_preferredCol_discipline_witness :
    (handleVimAction ⟨[[97, 98]], 1, 1, none, none, none, none, [], []⟩
        (.vim_move_up 1)).preferredCol = some 1 ∧
    ((handleVimAction ⟨[[97, 98]], 0, 1, none, none, none, none, [], []⟩
        (.vim_move_left 1)).preferredCol = none ∨
      ((handleVimAction ⟨[[97, 98]], 0, 1, none, none, none, none, [], []⟩
          (.vim_move_left 1)).lines = [[97, 98]] ∧
        (handleVimAction ⟨[[97, 98]], 0, 1, none, none, none, none, [], []⟩
          (.vim_move_left 1)).cursorRow = 0 ∧
        (handleVimAction ⟨[[97, 98]], 0, 1, none, none, none, none, [], []⟩
          (.vim_move_left 1)).cursorCol = 1 ∧
        (handleVimAction ⟨[[97, 98]], 0, 1, none, none, none, none, [], []⟩
          (.vim_move_left 1)).preferredCol = none)) :=
  ⟨(c8_preferredCol_discipline ⟨[[97, 98]], 1, 1, none, none, none, none, [], []⟩
      (.vim_move_up 1)).1 rfl,
   (c8_preferredCol_discipline ⟨[[97, 98]], 0, 1, none, none, none, none, [], []⟩
      (.vim_move_left 1)).2 rfl⟩

/-- C4 (amended): a backward-direction search performs no scan at all:
`vim_search` with direction backward only records the query in `lastSearchQuery`,
leaving the cursor and buffer unchanged, and `vim_search_next` with direction
backward returns the state unchanged; the forward-scan logic runs only for
direction forward. -/
theorem c4_backward_search_is_noop (s : TextBufferState) (q : Str) :
    handleVimAction s (.vim_search q .bwd) = { s with lastSearchQuery := some q } ∧
    handleVimAction s (.vim_search_next .bwd) = s := by
  refine ⟨rfl, ?_⟩
  simp only [handleVimAction]
  (repeat' split) <;> rfl

/-- C4 counterexample to the claim as stated: on lines `["ab"]` with cursor (0,0),
searching `"b"` forward moves the cursor, while the same search backward does not,
so the two directions do not return the same state. -/
theorem c4_direction_differs_counterexample :
    handleVimAction ⟨[[97, 98]], 0, 0, none, none, none, none, [], []⟩
        (.vim_search [98] .fwd) ≠
      handleVimAction ⟨[[97, 98]], 0, 0, none, none, none, none, [], []⟩
        (.vim_search [98] .bwd) := by decide

/-- The lexicographically smaller of two positions, row compared first, then
column (the spec's ordered-selection comparison). -/
def posMin (p q : Nat × Nat) : Nat × Nat :=
  if p.1 < q.1 ∨ (p.1 = q.1 ∧ p.2 < q.2) then p else q

/-- The lexicographically larger of two positions, row compared first, then column. -/
def posMax (p q : Nat × Nat) : Nat × Nat :=
  if p.1 < q.1 ∨ (p.1 = q.1 ∧ p.2 < q.2) then q else p

theorem delete_char_selection_eq (s : TextBufferState) (ar ac : Nat)
    (h : s.selectionAnchor = some (ar, ac)) (cnt : Nat) :
    handleVimAction s (.vim_delete_char cnt) =
      { replaceRangeInternal (pushUndo s)
          (posMin (ar, ac) (s.cursorRow, s.cursorCol)).1
          (posMin (ar, ac) (s.cursorRow, s.cursorCol)).2
          (posMax (ar, ac) (s.cursorRow, s.cursorCol)).1
          ((posMax (ar, ac) (s.cursorRow, s.cursorCol)).2 + 1) [] with
        selectionAnchor := none } := by
  simp only [handleVimAction, h]
  split <;> rename_i hc <;> simp [posMin, posMax, hc]

/-- C9: with an active selection anchor, `vim_delete_char` ignores its count,
deletes the anchor-to-cursor range ordered row-first-then-column and inclusive of
the end position (passing `endCol + 1` to the exclusive-end range primitive), and
clears the selection anchor. -/
theorem c9_delete_char_with_selection (s : TextBufferState) (ar ac : Nat)
    (h : s.selectionAnchor = some (ar, ac)) (cnt cnt' : Nat) :
    handleVimAction s (.vim_delete_char cnt) = handleVimAction s (.vim_delete_char cnt') ∧
    (handleVimAction s (.vim_delete_char cnt)).selectionAnchor = none ∧
    handleVimAction s (.vim_delete_char cnt) =
      { replaceRangeInternal (pushUndo s)
          (posMin (ar, ac) (s.cursorRow, s.cursorCol)).1
          (posMin (ar, ac) (s.cursorRow, s.cursorCol)).2
          (posMax (ar, ac) (s.cursorRow, s.cursorCol)).1
          ((posMax (ar, ac) (s.cursorRow, s.cursorCol)).2 + 1) [] with
        selectionAnchor := none } :=
  ⟨(delete_char_selection_eq s ar ac h cnt).trans
      (delete_char_selection_eq s ar ac h cnt').symm,
   by rw [delete_char_selection_eq s ar ac h cnt],
   delete_char_selection_eq s ar ac h cnt⟩

/-- C9 witness: the theorem applied to lines `["foo", "bar"]` with anchor (0,1)
and cursor (1,1), for counts 3 and 7. -/
theorem c9_delete_char_with_selection_witness :
    (⟨[[102, 111, 111], [98, 97, 114]], 1, 1, none, some (0, 1), none, none, [], []⟩ :
        TextBufferState).selectionAnchor = some (0, 1) ∧
    handleVimAction ⟨[[102, 111, 111], [98, 97, 114]], 1, 1, none, some (0, 1), none, none, [], []⟩
        (.vim_delete_char 3) =
      handleVimAction ⟨[[102, 111, 111], [98, 97, 114]], 1, 1, none, some (0, 1), none, none, [], []⟩
        (.vim_delete_char 7) ∧
    (handleVimAction ⟨[[102, 111, 111], [98, 97, 114]], 1, 1, none, some (0, 1), none, none, [], []⟩
        (.vim_delete_char 3)).selectionAnchor = none :=
  ⟨rfl,
   (c9_delete_char_with_selection _ 0 1 rfl 3 7).1,
   (c9_delete_char_with_selection _ 0 1 rfl 3 7).2.1⟩

/-- C10: with the cursor at column 0 of a row below the first, `vim_move_left`
with count 1 wraps to the previous row, landing on its last character (or column 0
if it is empty), and leaves `lines`, `clipboard` and the undo stack unchanged. -/
theorem c10_move_left_wraps (s : TextBufferState) (h0 : s.cursorCol = 0)
    (h1 : 0 < s.cursorRow) :
    handleVimAction s (.vim_move_left 1) =
      { s with
        cursorRow := s.cursorRow - 1
        cursorCol :=
          if cpLen (s.lines.getD (s.cursorRow - 1) []) = 0 then 0
          else cpLen (s.lines.getD (s.cursorRow - 1) []) - 1
        preferredCol := none } ∧
    (handleVimAction s (.vim_move_left 1)).lines = s.lines ∧
    (handleVimAction s (.vim_move_left 1)).clipboard = s.clipboard ∧
    (handleVimAction s (.vim_move_left 1)).undoStack = s.undoStack := by
  have hstep : iterateN (moveLeftStep s.lines) 1 (s.cursorRow, s.cursorCol) =
      (s.cursorRow - 1,
        if cpLen (s.lines.getD (s.cursorRow - 1) []) = 0 then 0
        else cpLen (s.lines.getD (s.cursorRow - 1) []) - 1) := by
    simp [iterateN, moveLeftStep, h0, h1]
  refine ⟨?_, ?_, rfl, rfl⟩
  · simp only [handleVimAction, hstep]
  · simp only [handleVimAction, hstep]

/-- C10 witness: the theorem applied at lines `["ab", "c"]`, cursor (1,0). -/
theorem c10_move_left_wraps_witness :
    handleVimAction ⟨[[97, 98], [99]], 1, 0, none, none, none, none, [], []⟩
        (.vim_move_left 1) =
      { (⟨[[97, 98], [99]], 1, 0, none, none, none, none, [], []⟩ : TextBufferState) with
        cursorRow := 0
        cursorCol :=
          if cpLen (([[97, 98], [99]] : List Str).getD 0 []) = 0 then 0
          else cpLen (([[97, 98], [99]] : List Str).getD 0 []) - 1
        preferredCol := none } :=
  (c10_move_left_wraps ⟨[[97, 98], [99]], 1, 0, none, none, none, none, [], []⟩
    rfl (by decide)).1

/-- C2: on lines `["𝕏𝕏a"]` (`𝕏` = U+1D54F, an astral codepoint) with cursor
(0,0), a forward search for `"a"` stores JS `String.indexOf`'s UTF-16 unit offset
4 in `cursorCol`, although the line is only 3 codepoints long — violating both the
codepoint-index contract and `cursorCol ≤ length(lines[cursorRow])`. -/
theorem c2_search_stores_utf16_offset :
    (handleVimAction ⟨[[120143, 120143, 97]], 0, 0, none, none, none, none, [], []⟩
        (.vim_search [97] .fwd)).cursorCol = 4 ∧
    cpLen ((handleVimAction ⟨[[120143, 120143, 97]], 0, 0, none, none, none, none, [], []⟩
        (.vim_search [97] .fwd)).lines.getD 0 []) = 3 := by decide

theorem take_succ_getD {α : Type} (d : α) (l : List α) (r : Nat) (h : r < l.length) :
    l.take (r + 1) = l.take r ++ [l.getD r d] := by
  induction l generalizing r with
  | nil => simp at h
  | cons x xs ih =>
    cases r with
    | zero => simp [List.getD]
    | succ n =>
      simp only [List.take, List.getD_cons_succ, List.cons_append]
      rw [ih n (by simpa using h)]

theorem drop_eq_getD_cons {α : Type} (d : α) (l : List α) (r : Nat) (h : r < l.length) :
    l.drop r = l.getD r d :: l.drop (r + 1) := by
  induction l generalizing r with
  | nil => simp at h
  | cons x xs ih =>
    cases r with
    | zero => simp [List.getD]
    | succ n =>
      simp only [List.drop, List.getD_cons_succ]
      exact ih n (by simpa using h)

theorem getLast_mem_of_eq_some (l : Str) (h : l.getLast? = some 10) : 10 ∈ l := by
  induction l with
  | nil => simp [List.getLast?] at h
  | cons x xs ih =>
    cases xs with
    | nil => simp_all [List.getLast?]
    | cons y ys => simpa using Or.inr (ih (by simpa using h))

theorem dropLast_append_ten (l : Str) (h : l.getLast? = some 10) :
    l.dropLast ++ [10] = l :=
  List.dropLast_append_getLast? 10 h

/-- C7: for a non-empty clipboard, a payload with a trailing line break is pasted
linewise — `paste(after)` inserts its lines below the current line and
`paste(before)` above it — while a payload without one is pasted characterwise at
`min(cursorCol + 1, lineLength)` resp. exactly `cursorCol`; and spec Scenario 4
holds. -/
theorem c7_paste_linewise_charwise (s : TextBufferState) (clip : Str)
    (hc : s.clipboard = some clip) (hne : clip ≠ [])
    (hr : s.cursorRow < s.lines.length)
    (hnl : ∀ ch ∈ s.lines.getD s.cursorRow [], ch ≠ 10) :
    (clip.getLast? = some 10 →
      (handleVimAction s (.vim_paste .after)).lines =
        s.lines.take (s.cursorRow + 1) ++ splitNl clip.dropLast ++
          s.lines.drop (s.cursorRow + 1) ∧
      (handleVimAction s (.vim_paste .before)).lines =
        s.lines.take s.cursorRow ++ splitNl clip.dropLast ++ s.lines.drop s.cursorRow) ∧
    (clip.getLast? ≠ some 10 →
      handleVimAction s (.vim_paste .after) =
        replaceRangeInternal (pushUndo s) s.cursorRow
          (min (s.cursorCol + 1) (cpLen (s.lines.getD s.cursorRow []))) s.cursorRow
          (min (s.cursorCol + 1) (cpLen (s.lines.getD s.cursorRow []))) clip ∧
      handleVimAction s (.vim_paste .before) =
        replaceRangeInternal (pushUndo s) s.cursorRow s.cursorCol s.cursorRow
          s.cursorCol clip) ∧
    (handleVimAction
        ⟨[[97, 98, 99]], 0, 0, none, none, some [120, 121, 122, 10], none, [], []⟩
        (.vim_paste .after)).lines = [[97, 98, 99], [120, 121, 122]] := by
  refine ⟨?_, ?_, by decide⟩
  · intro hlast
    have hmem : 10 ∈ clip := getLast_mem_of_eq_some clip hlast
    constructor
    · simp only [handleVimAction, hc, if_neg hne, if_pos hmem, if_pos hlast]
      simp only [replaceRangeInternal, pushUndo_lines, cpSlice, cpSliceFrom, cpLen]
      rw [List.drop_zero, List.take_length, List.drop_length, List.append_nil,
        splitNl_append_newline, splitNl_no_newline _ hnl]
      rw [take_succ_getD [] s.lines s.cursorRow hr]
      simp
    · have hcond : 10 ∈ clip ∧ clip.getLast? = some 10 := ⟨hmem, hlast⟩
      simp only [handleVimAction, hc, if_neg hne, if_pos hcond]
      simp only [replaceRangeInternal, pushUndo_lines, cpSlice, cpSliceFrom, cpLen]
      simp only [List.drop_zero, List.take_zero, List.nil_append]
      conv in clip ++ _ => rw [← dropLast_append_ten clip hlast]
      have hsplit : splitNl (clip.dropLast ++ [10] ++ s.lines.getD s.cursorRow []) =
          splitNl clip.dropLast ++ splitNl (s.lines.getD s.cursorRow []) := by
        rw [List.append_assoc, List.singleton_append, splitNl_append_newline]
      rw [hsplit, splitNl_no_newline _ hnl,
        drop_eq_getD_cons [] s.lines s.cursorRow hr]
      simp
  · intro hlast
    constructor
    · simp only [handleVimAction, hc, if_neg hne]
      split <;> simp [hlast]
    · have hcond : ¬ (10 ∈ clip ∧ clip.getLast? = some 10) := fun h' => hlast h'.2
      simp only [handleVimAction, hc, if_neg hne, if_neg hcond]

/-- C7 witness: the theorem applied to spec Scenario 4 (clipboard `"xyz\n"`,
lines `["abc"]`, cursor (0,0)). -/
theorem c7_paste_linewise_charwise_witness :
    (([120, 121, 122, 10] : Str).getLast? = some 10) ∧
    (handleVimAction
        ⟨[[97, 98, 99]], 0, 0, none, none, some [120, 121, 122, 10], none, [], []⟩
        (.vim_paste .after)).lines =
      ([[97, 98, 99]] : List Str).take 1 ++ splitNl ([120, 121, 122, 10] : Str).dropLast ++
        ([[97, 98, 99]] : List Str).drop 1 :=
  ⟨rfl,
   ((c7_paste_linewise_charwise
      ⟨[[97, 98, 99]], 0, 0, none, none, some [120, 121, 122, 10], none, [], []⟩
      [120, 121, 122, 10] rfl (by decide) (by decide) (by decide)).1 rfl).1⟩

/-- The whole document as one string: the lines joined by a line break. -/
def joinedDoc : List Str → Str
  | [] => []
  | [l] => l
  | l :: rest => l ++ 10 :: joinedDoc rest

/-- Lines each followed by a line break, concatenated. -/
def joinT (ls : List Str) : Str := (ls.map (fun l => l ++ [10])).flatten

/-- Flat codepoint offset of position `(r, c)` inside `joinedDoc lines`. -/
def flatOffset (lines : List Str) (r c : Nat) : Nat := lineStartOffset lines r + c

theorem joinT_cons (l : Str) (ls : List Str) : joinT (l :: ls) = l ++ 10 :: joinT ls := by
  simp [joinT]

theorem lineStartOffset_zero (ls : List Str) : lineStartOffset ls 0 = 0 := by
  simp [lineStartOffset]

theorem lineStartOffset_cons_succ (l : Str) (ls : List Str) (k : Nat) :
    lineStartOffset (l :: ls) (k + 1) = (cpLen l + 1) + lineStartOffset ls k := by
  simp [lineStartOffset]

theorem joinT_length (ls : List Str) : (joinT ls).length = lineStartOffset ls ls.length := by
  induction ls with
  | nil => simp [joinT, lineStartOffset]
  | cons l rest ih =>
    rw [joinT_cons, show (l :: rest).length = rest.length + 1 from rfl,
      lineStartOffset_cons_succ]
    simp only [List.length_append, List.length_cons, ih, cpLen]
    omega

theorem lineStartOffset_take (ls : List Str) (k j : Nat) (h : j ≤ k) :
    lineStartOffset (ls.take k) j = lineStartOffset ls j := by
  simp [lineStartOffset, List.take_take, Nat.min_eq_left h]

/-- `take` of the joined document up to `m` characters into line `k`. -/
theorem joinedDoc_take (ls : List Str) (k m : Nat) (hk : k < ls.length)
    (hm : m ≤ (ls.getD k []).length) :
    (joinedDoc ls).take (lineStartOffset ls k + m) =
      joinT (ls.take k) ++ (ls.getD k []).take m := by
  induction ls generalizing k with
  | nil => simp at hk
  | cons l rest ih =>
    cases k with
    | zero =>
      simp only [lineStartOffset_zero, Nat.zero_add, List.take_zero, joinT,
        List.map_nil, List.flatten_nil, List.nil_append]
      cases rest with
      | nil => simp [joinedDoc]
      | cons r rs =>
        have : joinedDoc (l :: r :: rs) = l ++ 10 :: joinedDoc (r :: rs) := rfl
        rw [this, List.take_append_of_le_length (by simpa [List.getD] using hm)]
        simp [List.getD]
    | succ n =>
      cases rest with
      | nil => simp at hk
      | cons r rs =>
        have hj : joinedDoc (l :: r :: rs) = l ++ 10 :: joinedDoc (r :: rs) := rfl
        rw [hj, lineStartOffset_cons_succ]
        have harr : cpLen l + 1 + lineStartOffset (r :: rs) n + m =
            (l ++ [10]).length + (lineStartOffset (r :: rs) n + m) := by
          simp only [List.length_append, List.length_cons, List.length_nil, cpLen]
          omega
        rw [harr]
        have happ : l ++ 10 :: joinedDoc (r :: rs) = (l ++ [10]) ++ joinedDoc (r :: rs) := by
          simp
        rw [happ, List.take_append, List.take_succ_cons, joinT_cons]
        rw [ih n (by simpa using hk) (by simpa [List.getD] using hm)]
        simp [List.getD]

/-- `drop` inside `joinT`, landing `c` characters into line `r`. -/
theorem joinT_drop (ls : List Str) (r c : Nat) (hr : r < ls.length)
    (hc : c ≤ (ls.getD r []).length) :
    (joinT ls).drop (lineStartOffset ls r + c) =
      (ls.getD r []).drop c ++ 10 :: joinT (ls.drop (r + 1)) := by
  induction ls generalizing r with
  | nil => simp at hr
  | cons l rest ih =>
    cases r with
    | zero =>
      rw [lineStartOffset_zero, Nat.zero_add, joinT_cons]
      have hc' : c ≤ l.length := by simpa [List.getD] using hc
      have happ : l ++ 10 :: joinT rest = (l ++ [10]) ++ joinT rest := by simp
      rw [happ, List.drop_append_of_le_length (by simp; omega),
        List.drop_append_of_le_length hc']
      simp [List.getD]
    | succ n =>
      rw [lineStartOffset_cons_succ, joinT_cons]
      have happ : l ++ 10 :: joinT rest = (l ++ [10]) ++ joinT rest := by simp
      have harr : cpLen l + 1 + lineStartOffset rest n + c =
          (l ++ [10]).length + (lineStartOffset rest n + c) := by
        simp only [List.length_append, List.length_cons, List.length_nil, cpLen]
        omega
      rw [happ, harr, List.drop_append]
      rw [ih n (by simpa using hr) (by simpa [List.getD] using hc)]
      simp [List.getD]

theorem lineStartOffset_succ (ls : List Str) (k : Nat) (h : k < ls.length) :
    lineStartOffset ls (k + 1) = lineStartOffset ls k + (cpLen (ls.getD k []) + 1) := by
  simp [lineStartOffset, take_succ_getD [] ls k h]

theorem lineStartOffset_mono (ls : List Str) (a b : Nat) (h : a ≤ b) :
    lineStartOffset ls a ≤ lineStartOffset ls b := by
  induction b with
  | zero => simp [Nat.le_zero.mp h]
  | succ n ih =>
    rcases Nat.lt_or_ge a (n + 1) with h' | h'
    · refine (ih (by omega)).trans ?_
      rcases Nat.lt_or_ge n ls.length with hn | hn
      · rw [lineStartOffset_succ ls n hn]; omega
      · rw [show lineStartOffset ls (n + 1) = lineStartOffset ls n by
          simp [lineStartOffset, List.take_of_length_le hn,
            List.take_of_length_le (Nat.le_succ_of_le hn)]]
    · exact Nat.le_of_eq (by rw [Nat.le_antisymm h h'])

theorem getD_take {α : Type} (d : α) (ls : List α) (k i : Nat) (h : i < k) :
    (ls.take k).getD i d = ls.getD i d := by
  induction ls generalizing k i with
  | nil => simp
  | cons x xs ih =>
    cases k with
    | zero => omega
    | succ n =>
      cases i with
      | zero => simp [List.getD]
      | succ j => simpa [List.getD] using ih n j (by omega)

/-- The source's inclusive selection extraction equals the flat-offset slice of the
joined document from the start position through the end position inclusive. -/
theorem yank_extract_eq (lines : List Str) (sr sc er ec : Nat)
    (hle : sr < er ∨ (sr = er ∧ sc ≤ ec))
    (her : er < lines.length)
    (hsc : sc ≤ (lines.getD sr []).length)
    (hec : ec < (lines.getD er []).length) :
    (if sr = er then cpSlice (lines.getD sr []) sc (ec + 1)
     else
       cpSliceFrom (lines.getD sr []) sc ++ [10] ++
         (((lines.drop (sr + 1)).take (er - (sr + 1))).map (fun l => l ++ [10])).flatten ++
         cpSlice (lines.getD er []) 0 (ec + 1)) =
    cpSlice (joinedDoc lines) (flatOffset lines sr sc) (flatOffset lines er ec + 1) := by
  have htakelen : (lines.take er).length = er := by simp; omega
  have hlen : (joinT (lines.take er)).length = lineStartOffset lines er := by
    rw [joinT_length, htakelen, lineStartOffset_take lines er er (Nat.le_refl er)]
  have hB : flatOffset lines er ec + 1 = lineStartOffset lines er + (ec + 1) := by
    simp [flatOffset]; omega
  have htake := joinedDoc_take lines er (ec + 1) her (by omega)
  rcases eq_or_ne sr er with hsr | hsr
  · subst hsr
    rw [if_pos rfl]
    show cpSlice (lines.getD sr []) sc (ec + 1) = _
    unfold cpSlice flatOffset
    rw [Nat.add_assoc, htake, ← hlen, List.drop_append]
  · have hlt : sr < er := by rcases hle with h' | ⟨h', -⟩; exact h'; exact absurd h' hsr
    rw [if_neg hsr]
    unfold cpSlice flatOffset
    rw [Nat.add_assoc, htake]
    have hmono : lineStartOffset lines sr + sc ≤ (joinT (lines.take er)).length := by
      rw [hlen]
      have h1 := lineStartOffset_succ lines sr (by omega)
      have h2 := lineStartOffset_mono lines (sr + 1) er hlt
      unfold cpLen at h1
      omega
    rw [List.drop_append_of_le_length hmono]
    have hdrop : (joinT (lines.take er)).drop (lineStartOffset lines sr + sc) =
        ((lines.take er).getD sr []).drop sc ++
          10 :: joinT ((lines.take er).drop (sr + 1)) := by
      rw [← lineStartOffset_take lines er sr (Nat.le_of_lt hlt)]
      exact joinT_drop (lines.take er) sr sc (by omega)
        (by rw [getD_take [] lines er sr hlt]; exact hsc)
    rw [hdrop, getD_take [] lines er sr hlt, List.drop_take]
    show List.drop sc (lines.getD sr []) ++ [10] ++ joinT _ ++ _ = _
    simp [List.append_assoc]
    rw [List.drop_take]

/-- C6: with an active selection anchor on real characters, selection-bounded yank
and delete order (start, end) by comparing row first then column between the
anchor and the cursor, and include the character at the end position: the yanked
clipboard equals the joined-document slice from the start position through the end
position inclusive, the delete passes `endCol + 1` to the exclusive-end range
primitive, and spec Scenario 3 (lines `["foo", "bar"]`, anchor (0,1), cursor
(1,1), yank-selection gives `"oo\nba"`) holds. -/
theorem c6_selection_inclusive (s : TextBufferState) (ar ac : Nat)
    (h : s.selectionAnchor = some (ar, ac))
    (har : ar < s.lines.length) (hcr : s.cursorRow < s.lines.length)
    (hac : ac < cpLen (s.lines.getD ar []))
    (hcc : s.cursorCol < cpLen (s.lines.getD s.cursorRow [])) :
    (handleVimAction s .vim_yank_selection).clipboard =
      some (cpSlice (joinedDoc s.lines)
        (flatOffset s.lines (posMin (ar, ac) (s.cursorRow, s.cursorCol)).1
          (posMin (ar, ac) (s.cursorRow, s.cursorCol)).2)
        (flatOffset s.lines (posMax (ar, ac) (s.cursorRow, s.cursorCol)).1
          (posMax (ar, ac) (s.cursorRow, s.cursorCol)).2 + 1)) ∧
    (∀ cnt, handleVimAction s (.vim_delete_char cnt) =
      { replaceRangeInternal (pushUndo s)
          (posMin (ar, ac) (s.cursorRow, s.cursorCol)).1
          (posMin (ar, ac) (s.cursorRow, s.cursorCol)).2
          (posMax (ar, ac) (s.cursorRow, s.cursorCol)).1
          ((posMax (ar, ac) (s.cursorRow, s.cursorCol)).2 + 1) [] with
        selectionAnchor := none }) ∧
    (handleVimAction
        ⟨[[102, 111, 111], [98, 97, 114]], 1, 1, none, some (0, 1), none, none, [], []⟩
        .vim_yank_selection).clipboard = some [111, 111, 10, 98, 97] := by
  refine ⟨?_, fun cnt => delete_char_selection_eq s ar ac h cnt, by decide⟩
  simp only [handleVimAction, h]
  split
  · rename_i hcond
    simp only [posMin, posMax, if_pos hcond]
    exact congrArg some (yank_extract_eq s.lines ar ac s.cursorRow s.cursorCol
      (by rcases hcond with h' | ⟨h1, h2⟩
          · exact Or.inl h'
          · exact Or.inr ⟨h1, Nat.le_of_lt h2⟩)
      hcr (Nat.le_of_lt hac) hcc)
  · rename_i hcond
    simp only [posMin, posMax, if_neg hcond]
    refine congrArg some (yank_extract_eq s.lines s.cursorRow s.cursorCol ar ac ?_
      har (Nat.le_of_lt hcc) hac)
    rcases not_or.mp hcond with ⟨h1, h2⟩
    by_cases heq : ar = s.cursorRow
    · subst heq
      exact Or.inr ⟨rfl, by omega⟩
    · exact Or.inl (by omega)

/-- C6 witness: the theorem applied to spec Scenario 3. -/
theorem c6_selection_inclusive_witness :
    (⟨[[102, 111, 111], [98, 97, 114]], 1, 1, none, some (0, 1), none, none, [], []⟩ :
        TextBufferState).selectionAnchor = some (0, 1) ∧
    (handleVimAction
        ⟨[[102, 111, 111], [98, 97, 114]], 1, 1, none, some (0, 1), none, none, [], []⟩
        .vim_yank_selection).clipboard =
      some (cpSlice (joinedDoc [[102, 111, 111], [98, 97, 114]])
        (flatOffset [[102, 111, 111], [98, 97, 114]] (posMin (0, 1) (1, 1)).1
          (posMin (0, 1) (1, 1)).2)
        (flatOffset [[102, 111, 111], [98, 97, 114]] (posMax (0, 1) (1, 1)).1
          (posMax (0, 1) (1, 1)).2 + 1)) :=
  ⟨rfl,
   (c6_selection_inclusive
      ⟨[[102, 111, 111], [98, 97, 114]], 1, 1, none, some (0, 1), none, none, [], []⟩
      0 1 rfl (by decide) (by decide) (by decide) (by decide)).1⟩

/-- UTF-16 unit length of line `r` (the length JS `indexOf` scans over). -/
def uLineLen (lines : List Str) (r : Nat) : Nat := (toUtf16 (lines.getD r [])).length

/-- Does the query occur at UTF-16 position `p.2` of line `p.1`? -/
def matchAt (lines : List Str) (q : Str) (p : Nat × Nat) : Bool :=
  strMatchAt (toUtf16 (lines.getD p.1 [])) (toUtf16 q) p.2

/-- All scan positions of row `r`, in order (unit indices `0..len` inclusive). -/
def rowCandidates (lines : List Str) (r : Nat) : List (Nat × Nat) :=
  (List.range (uLineLen lines r + 1)).map (fun k => (r, k))

/-- Scan positions of row `r` from unit index `s0` on, in order. -/
def rowCandidatesFrom (lines : List Str) (r s0 : Nat) : List (Nat × Nat) :=
  (List.range (uLineLen lines r + 1 - s0)).map (fun d => (r, s0 + d))

/-- Modelled from the claim's wording: the first match found by scanning the
current line starting just past the cursor column, then each subsequent line in
order, then wrapping from the first line up to but not including the original
cursor position. -/
def searchScanSpec (lines : List Str) (row col : Nat) (q : Str) : Option (Nat × Nat) :=
  (rowCandidatesFrom lines row (min (col + 1) (uLineLen lines row)) ++
   ((List.range (lines.length - (row + 1))).map
     (fun d => rowCandidates lines (row + 1 + d))).flatten ++
   (((List.range (row + 1)).map (fun r => rowCandidates lines r)).flatten).filter
     (fun p => decide (p.1 < row) || decide (p.2 < col))).find? (matchAt lines q)

theorem find?_range_lower (n s0 : Nat) (p : Nat → Bool) (hs : s0 ≤ n) :
    (List.range n).find? (fun k => decide (s0 ≤ k) && p k) =
      ((List.range (n - s0)).map (fun d => s0 + d)).find? p := by
  conv_lhs => rw [show n = s0 + (n - s0) by omega, List.range_add]
  rw [List.find?_append]
  have h1 : (List.range s0).find? (fun k => decide (s0 ≤ k) && p k) = none := by
    rw [List.find?_eq_none]
    intro x hx
    have : x < s0 := List.mem_range.mp hx
    simp [Nat.not_le.mpr this]
  rw [h1, Option.none_or, List.find?_map, List.find?_map]
  have hp : ((fun k => decide (s0 ≤ k) && p k) ∘ (fun d => s0 + d)) =
      (p ∘ (fun d => s0 + d)) := by
    funext d
    simp [Nat.le_add_right]
  rw [hp]

theorem rowCands_find (lines : List Str) (q : Str) (r : Nat) :
    (rowCandidates lines r).find? (matchAt lines q) =
      (jsIndexOf (lines.getD r []) q 0).map (fun k => (r, k)) := by
  unfold rowCandidates jsIndexOf uLineLen
  rw [List.find?_map]
  simp only [Nat.zero_min, Nat.zero_le, decide_True, Bool.true_and]
  rfl

theorem rowCandsFrom_find (lines : List Str) (q : Str) (r f : Nat) :
    (rowCandidatesFrom lines r (min f (uLineLen lines r))).find? (matchAt lines q) =
      (jsIndexOf (lines.getD r []) q f).map (fun k => (r, k)) := by
  unfold rowCandidatesFrom jsIndexOf uLineLen
  rw [List.find?_map,
    find?_range_lower ((toUtf16 (lines.getD r [])).length + 1) (min f _) _ (by omega),
    List.find?_map, Option.map_map]
  rfl

theorem jsIndexOf_zero (l q : Str) :
    jsIndexOf l q 0 = (List.range ((toUtf16 l).length + 1)).find?
      (fun k => strMatchAt (toUtf16 l) (toUtf16 q) k) := by
  unfold jsIndexOf
  simp only [Nat.zero_min, Nat.zero_le, decide_True, Bool.true_and]

theorem jsIndexOf_empty_needle (l q : Str) (f : Nat) (hq : toUtf16 q = []) :
    jsIndexOf l q f = some (min f (toUtf16 l).length) := by
  simp only [jsIndexOf]
  rw [find?_range_lower ((toUtf16 l).length + 1) (min f (toUtf16 l).length)
    (strMatchAt (toUtf16 l) (toUtf16 q)) (by omega)]
  rw [List.find?_map]
  rw [show (toUtf16 l).length + 1 - min f (toUtf16 l).length =
      ((toUtf16 l).length - min f (toUtf16 l).length) + 1 by omega,
    List.range_succ_eq_map]
  rw [List.find?_cons_of_pos _ (by simp [strMatchAt, hq])]
  simp

theorem searchLinesLoop_eq_aux (lines : List Str) (q : Str) :
    ∀ m j, lines.length - j = m → searchLinesLoop q (lines.drop j) j =
      (((List.range (lines.length - j)).map
        (fun d => rowCandidates lines (j + d))).flatten).find? (matchAt lines q) := by
  intro m
  induction m with
  | zero =>
    intro j hn
    rw [List.drop_eq_nil_of_le (by omega), hn]
    simp [searchLinesLoop]
  | succ n ih =>
    intro j hn
    have hj : j < lines.length := by omega
    rw [drop_eq_getD_cons [] lines j hj, hn, List.range_succ_eq_map]
    simp only [List.map_cons, List.flatten_cons, List.find?_append, Nat.add_zero]
    rw [rowCands_find]
    have hfun : ((fun d => rowCandidates lines (j + d)) ∘ Nat.succ) =
        (fun d => rowCandidates lines (j + 1 + d)) := by
      funext d
      show rowCandidates lines (j + (d + 1)) = rowCandidates lines (j + 1 + d)
      congr 1
      omega
    have hrec := ih (j + 1) (by omega)
    rw [show lines.length - (j + 1) = n by omega] at hrec
    rw [List.map_map, hfun]
    rw [show searchLinesLoop q (lines.getD j [] :: lines.drop (j + 1)) j =
        (match jsIndexOf (lines.getD j []) q 0 with
         | some jj => some (j, jj)
         | none => searchLinesLoop q (lines.drop (j + 1)) (j + 1)) from rfl]
    cases hjx : jsIndexOf (lines.getD j []) q 0 with
    | some jj => simp
    | none => simp [hrec]

theorem searchLinesLoop_eq (lines : List Str) (q : Str) (j : Nat) :
    searchLinesLoop q (lines.drop j) j =
      (((List.range (lines.length - j)).map
        (fun d => rowCandidates lines (j + d))).flatten).find? (matchAt lines q) :=
  searchLinesLoop_eq_aux lines q _ j rfl

theorem find?_range_filter_lt :
    ∀ (N c : Nat) (p : Nat → Bool),
      ((List.range N).filter (fun k => decide (k < c))).find? p =
        match (List.range N).find? p with
        | some j => if j < c then some j else none
        | none => none := by
  intro N
  induction N with
  | zero => intro c p; simp
  | succ n ih =>
    intro c p
    rw [List.range_succ_eq_map]
    cases c with
    | zero =>
      simp only [Nat.not_lt_zero, decide_False, List.filter_false, List.find?_nil]
      cases (0 :: (List.range n).map Nat.succ).find? p <;> simp
    | succ c' =>
      rw [List.filter_cons_of_pos (by simp)]
      rw [List.filter_map]
      have hps : ((fun k => decide (k < c' + 1)) ∘ Nat.succ) = (fun d => decide (d < c')) := by
        funext d
        simp [Nat.succ_lt_succ_iff]
      rw [hps]
      by_cases hp0 : p 0
      · rw [List.find?_cons_of_pos _ hp0, List.find?_cons_of_pos _ hp0]
        simp
      · rw [List.find?_cons_of_neg _ hp0, List.find?_cons_of_neg _ hp0,
          List.find?_map, List.find?_map, ih c' (p ∘ Nat.succ)]
        cases (List.range n).find? (p ∘ Nat.succ) with
        | none => simp
        | some j =>
          by_cases hj : j < c'
          · simp [hj, Nat.succ_lt_succ hj]
          · simp [hj, fun h => hj (Nat.lt_of_succ_lt_succ h)]

theorem rowCands_filter_find (lines : List Str) (q : Str) (row col i : Nat) (hi : i ≤ row) :
    ((rowCandidates lines i).filter
      (fun p => decide (p.1 < row) || decide (p.2 < col))).find? (matchAt lines q) =
    match jsIndexOf (lines.getD i []) q 0 with
    | some j => if i < row ∨ j < col then some (i, j) else none
    | none => none := by
  rcases Nat.lt_or_ge i row with hlt | hge
  · have hall : ∀ p ∈ rowCandidates lines i,
        (decide (p.1 < row) || decide (p.2 < col)) = true := by
      intro p hp
      rcases List.mem_map.mp hp with ⟨k, -, rfl⟩
      simp [hlt]
    rw [List.filter_eq_self.mpr hall, rowCands_find]
    cases jsIndexOf (lines.getD i []) q 0 with
    | none => rfl
    | some j => simp [Or.inl hlt]
  · have hieq : i = row := Nat.le_antisymm hi hge
    subst hieq
    unfold rowCandidates
    rw [List.filter_map]
    have hpred : ((fun p : Nat × Nat => decide (p.1 < i) || decide (p.2 < col)) ∘
        (fun k => (i, k))) = (fun k => decide (k < col)) := by
      funext k
      simp
    rw [hpred, List.find?_map, find?_range_filter_lt]
    have hm : (matchAt lines q ∘ fun k => (i, k)) =
        (fun k => strMatchAt (toUtf16 (lines.getD i [])) (toUtf16 q) k) := rfl
    rw [hm]
    have hu : uLineLen lines i = (toUtf16 (lines.getD i [])).length := rfl
    rw [hu, ← jsIndexOf_zero]
    cases hjx : jsIndexOf (lines.getD i []) q 0 with
    | none => simp
    | some j =>
      by_cases hc : j < col
      · simp [hc]
      · simp [hc]

theorem searchWrapLoop_eq_aux (lines : List Str) (q : Str) (row col : Nat)
    (hq : toUtf16 q ≠ []) :
    ∀ m i, row + 1 - i = m →
      searchWrapLoop q row col ((lines.take (row + 1)).drop i) i =
        ((((List.range (row + 1 - i)).map
          (fun d => rowCandidates lines (i + d))).flatten).filter
          (fun p => decide (p.1 < row) || decide (p.2 < col))).find? (matchAt lines q) := by
  intro m
  induction m with
  | zero =>
    intro i hn
    rw [List.drop_eq_nil_of_le (by simp; omega), hn]
    simp [searchWrapLoop]
  | succ n ih =>
    intro i hn
    have hi : i ≤ row := by omega
    rcases Nat.lt_or_ge i lines.length with hlen | hlen
    · rw [drop_eq_getD_cons [] (lines.take (row + 1)) i (by simp; omega),
        getD_take [] lines (row + 1) i (by omega), hn, List.range_succ_eq_map]
      simp only [List.map_cons, List.flatten_cons, List.filter_append, List.find?_append,
        Nat.add_zero]
      rw [rowCands_filter_find lines q row col i hi]
      have hfun : ((fun d => rowCandidates lines (i + d)) ∘ Nat.succ) =
          (fun d => rowCandidates lines (i + 1 + d)) := by
        funext d
        show rowCandidates lines (i + (d + 1)) = rowCandidates lines (i + 1 + d)
        congr 1
        omega
      have hrec := ih (i + 1) (by omega)
      rw [show row + 1 - (i + 1) = n by omega] at hrec
      rw [List.map_map, hfun]
      rw [show searchWrapLoop q row col
            (lines.getD i [] :: (lines.take (row + 1)).drop (i + 1)) i =
          (match jsIndexOf (lines.getD i []) q 0 with
           | some j =>
             if i < row ∨ j < col then some (i, j)
             else searchWrapLoop q row col ((lines.take (row + 1)).drop (i + 1)) (i + 1)
           | none => searchWrapLoop q row col ((lines.take (row + 1)).drop (i + 1)) (i + 1))
          from rfl]
      cases hjx : jsIndexOf (lines.getD i []) q 0 with
      | none => simp [hrec]
      | some j =>
        by_cases hc : i < row ∨ j < col
        · simp [hc]
        · simp [hc, hrec]
    · rw [List.drop_eq_nil_of_le (by simp; omega)]
      rw [show searchWrapLoop q row col [] i = none from rfl]
      symm
      rw [List.find?_eq_none]
      intro p hp
      rcases List.mem_filter.mp hp with ⟨hpmem, -⟩
      rcases List.mem_flatten.mp hpmem with ⟨rc, hrc, hprc⟩
      rcases List.mem_map.mp hrc with ⟨d, -, rfl⟩
      rcases List.mem_map.mp hprc with ⟨k, -, rfl⟩
      simp only [matchAt, strMatchAt]
      rw [List.getD_eq_getElem?_getD, List.getElem?_eq_none (by omega)]
      simp only [Option.getD_none]
      show ¬((((toUtf16 []).drop k).take (toUtf16 q).length == toUtf16 q) = true)
      simp only [toUtf16, List.map_nil, List.flatten_nil, List.drop_nil, List.take_nil,
        beq_iff_eq]
      exact fun h => hq h.symm

theorem searchWrapLoop_eq (lines : List Str) (q : Str) (row col : Nat)
    (hq : toUtf16 q ≠ []) :
    searchWrapLoop q row col (lines.take (row + 1)) 0 =
      ((((List.range (row + 1)).map (fun d => rowCandidates lines d)).flatten).filter
        (fun p => decide (p.1 < row) || decide (p.2 < col))).find? (matchAt lines q) := by
  have h := searchWrapLoop_eq_aux lines q row col hq (row + 1) 0 rfl
  rw [List.drop_zero] at h
  rw [h]
  have hfun : (fun d => rowCandidates lines (0 + d)) = (fun d => rowCandidates lines d) := by
    funext d
    rw [Nat.zero_add]
  rw [hfun, Nat.sub_zero]

/-- The source's forward-scan block computes exactly the first match in the
spec's scan order. -/
theorem vimSearchForward_eq_spec (lines : List Str) (row col : Nat) (q : Str) :
    vimSearchForward lines row col q = searchScanSpec lines row col q := by
  unfold vimSearchForward searchScanSpec
  rw [List.find?_append, List.find?_append, rowCandsFrom_find lines q row (col + 1)]
  cases h1 : jsIndexOf (lines.getD row []) q (col + 1) with
  | some idx => simp
  | none =>
    have hq : toUtf16 q ≠ [] := by
      intro hq0
      rw [jsIndexOf_empty_needle _ _ _ hq0] at h1
      exact Option.noConfusion h1
    rw [← searchLinesLoop_eq lines q (row + 1)]
    simp only [Option.map_none', Option.none_or]
    cases h2 : searchLinesLoop q (lines.drop (row + 1)) (row + 1) with
    | some p => simp
    | none =>
      simp only [Option.none_or]
      exact searchWrapLoop_eq lines q row col hq

/-- C5: forward search always records the query in `lastSearchQuery` and leaves
the line content unchanged; when the scan (current line from the column after the
cursor, then subsequent lines in order, then wrapping from the first line up to
but not including the original cursor position) finds no match the cursor is
unchanged, and when it finds one the cursor moves to the first such match. -/
theorem c5_forward_search (s : TextBufferState) (q : Str) :
    (handleVimAction s (.vim_search q .fwd)).lastSearchQuery = some q ∧
    (handleVimAction s (.vim_search q .fwd)).lines = s.lines ∧
    (searchScanSpec s.lines s.cursorRow s.cursorCol q = none →
      (handleVimAction s (.vim_search q .fwd)).cursorRow = s.cursorRow ∧
      (handleVimAction s (.vim_search q .fwd)).cursorCol = s.cursorCol) ∧
    (∀ p, searchScanSpec s.lines s.cursorRow s.cursorCol q = some p →
      (handleVimAction s (.vim_search q .fwd)).cursorRow = p.1 ∧
      (handleVimAction s (.vim_search q .fwd)).cursorCol = p.2) := by
  have he := vimSearchForward_eq_spec s.lines s.cursorRow s.cursorCol q
  simp only [handleVimAction]
  cases hv : vimSearchForward s.lines s.cursorRow s.cursorCol q with
  | some p0 =>
    rw [hv] at he
    refine ⟨rfl, rfl, ?_, ?_⟩
    · intro hnone
      rw [← he] at hnone
      exact Option.noConfusion hnone
    · intro p hp
      rw [← he] at hp
      cases hp
      exact ⟨rfl, rfl⟩
  | none =>
    rw [hv] at he
    refine ⟨rfl, rfl, fun _ => ⟨rfl, rfl⟩, ?_⟩
    intro p hp
    rw [← he] at hp
    exact Option.noConfusion hp

/-- C5 witness: the theorem applied to lines `["hay"]`, cursor (0,0), query
`"a"`, whose scan finds the match at (0,1). -/
theorem c5_forward_search_witness :
    searchScanSpec [[104, 97, 121]] 0 0 [97] = some (0, 1) ∧
    (handleVimAction ⟨[[104, 97, 121]], 0, 0, none, none, none, none, [], []⟩
        (.vim_search [97] .fwd)).cursorRow = 0 ∧
    (handleVimAction ⟨[[104, 97, 121]], 0, 0, none, none, none, none, [], []⟩
        (.vim_search [97] .fwd)).cursorCol = 1 :=
  ⟨by decide,
   (c5_forward_search ⟨[[104, 97, 121]], 0, 0, none, none, none, none, [], []⟩
      [97]).2.2.2 (0, 1) (by decide)⟩

end VimBuf
